import Mathlib

/-!
Shallow embedding of the NeuroLab backend processing core, translated from
the repository sources:

* `backend/app/processing/features.py`   (FeatureExtractor)
* `backend/app/processing/preprocessing.py` (PreprocessingPipeline.detect_bad_channels)
* `backend/app/tasks/realtime.py`        (RealtimeBuffer)
* `backend/app/api/models.py`            (promote_model)
* `backend/app/tasks/preprocessing.py`, `backend/app/tasks/features.py`,
  `backend/app/tasks/training.py`        (worker failure handlers)

Floating-point values are modelled by exact rationals (`ℚ`) except where the
code takes square roots or logarithms, where real numbers (`ℝ`) appear.
External library calls (`scipy.signal.welch`) are abstracted as parameters;
the Welch frequency grid `k * fs / nperseg` is modelled explicitly where a
claim depends on it.
-/

namespace NeuroLab

/-- Model of `np.mean` on a 1-D array of rationals. An empty array yields `0`
(the embedding's total division; NumPy would emit NaN, which no claim relies on). -/
def npMean (l : List ℚ) : ℚ := l.sum / l.length

/-- Model of `np.var` with the default `ddof=0` (population variance). -/
def npVar (l : List ℚ) : ℚ := npMean (l.map (fun x => (x - npMean l) ^ 2))

/-- Central moment of order `k` with population normalisation, as used by
`scipy.stats.skew`/`scipy.stats.kurtosis` with the default `bias=True`. -/
def centralMoment (k : ℕ) (l : List ℚ) : ℚ :=
  npMean (l.map (fun x => (x - npMean l) ^ k))

/-- Model of `scipy.stats.kurtosis` (Fisher definition, `bias=True`):
`m4 / m2^2 - 3`. For a constant signal `m2 = 0` and the embedding's total
division gives `0 - 3 = -3`; scipy would give NaN, and both fail every
strict comparison against a positive threshold, which is all the code does
with the value. -/
def scipyKurtosis (l : List ℚ) : ℚ :=
  centralMoment 4 l / (centralMoment 2 l) ^ 2 - 3

/-- Model of `np.trapz(y, x)` on a list of `(x, y)` pairs:
the sum of `(x2 - x1) * (y1 + y2) / 2` over adjacent pairs.
Fewer than two points integrate to `0`, as in NumPy. -/
def trapz (l : List (ℚ × ℚ)) : ℚ :=
  (List.zipWith (fun p q => (q.1 - p.1) * (p.2 + q.2) / 2) l l.tail).sum

/-- Frequency band, from `FeatureExtractor.__init__` (`self.bands` entries). -/
structure Band where
  name : String
  low : ℚ
  high : ℚ
deriving Repr, DecidableEq

/-- Default band list from `FeatureExtractor.__init__` (design-doc defaults). -/
def defaultBands : List Band :=
  [⟨"delta", 1, 4⟩, ⟨"theta", 4, 8⟩, ⟨"alpha", 8, 12⟩, ⟨"beta", 12, 30⟩,
   ⟨"gamma", 30, 45⟩]

/-- Boolean-mask selection `freqs >= low & freqs <= high` followed by indexing,
on a `(freq, psd)` point list. -/
def bandSelect (low high : ℚ) (pts : List (ℚ × ℚ)) : List (ℚ × ℚ) :=
  pts.filter (fun p => low ≤ p.1 ∧ p.1 ≤ high)

/-- Model of `FeatureExtractor._compute_band_powers`, lines 145-185 of
`features.py`, applied to the `(freqs, psd)` output of `scipy.signal.welch`
(abstracted as the input point list). Produces the ordered dict
`band_delta, ..., band_gamma, total_power` — note that `total_power`
is stored in the same dict as the `band_*` entries. -/
def compute_band_powers (pts : List (ℚ × ℚ)) : List (String × ℚ) :=
  defaultBands.map (fun b => ("band_" ++ b.name, trapz (bandSelect b.low b.high pts)))
    ++ [("total_power", trapz (bandSelect 1 45 pts))]

/-- Divisor actually used by `FeatureExtractor._compute_relative_band_powers`,
line 197: `band_powers.get('total_power', 1e-10)`. -/
def relDivisor (bp : List (String × ℚ)) : ℚ :=
  ((bp.lookup "total_power").getD (1 / 10 ^ 10))

/-- Model of `FeatureExtractor._compute_relative_band_powers`, lines 187-206:
for each configured band whose `band_<name>` key is present, emit
`rel_<name> = band / total` where `total` is `relDivisor`. -/
def compute_relative_band_powers (bp : List (String × ℚ)) : List (String × ℚ) :=
  defaultBands.filterMap (fun b =>
    match bp.lookup ("band_" ++ b.name) with
    | some v => some ("rel_" ++ b.name, v / relDivisor bp)
    | none => none)

/-- Welch frequency grid with resolution 1/2 Hz: points `(k/2, psd k)` for
`k = 0, ..., M`. This is the grid `scipy.signal.welch` returns whenever
`nperseg = int(welch_window_sec * sfreq)` equals `2 * sfreq` exactly, i.e.
whenever `2 * sfreq` is an integer — in particular at the pipeline's default
`sfreq = 250`, where `M = 250`. The PSD values are abstract. -/
def welchGrid (M : ℕ) (psd : ℕ → ℚ) : List (ℚ × ℚ) :=
  (List.range (M + 1)).map (fun (k : ℕ) => ((k : ℚ) / 2, psd k))

/-- Total power of a point list, `np.trapz` over the 1-45 Hz selection
(line 183 of `features.py`). -/
def totalPower (pts : List (ℚ × ℚ)) : ℚ := trapz (bandSelect 1 45 pts)

/-- Sum of the relative band-power values of a band-power dict. -/
def relSum (bp : List (String × ℚ)) : ℚ :=
  ((compute_relative_band_powers bp).map Prod.snd).sum

/-- Default embedding dimension `entropy_m` from `FeatureExtractor.__init__`. -/
def entropy_m : ℕ := 2

/-- Default tolerance factor `entropy_r_factor = 0.2` from
`FeatureExtractor.__init__`. -/
def entropy_r_factor : ℚ := 1 / 5

/-- Chebyshev distance `np.max(np.abs(t1 - t2))` between two equal-length
templates (folded with base 0; all entries are nonnegative). -/
def chebDist {α : Type} [LinearOrderedField α] (t1 t2 : List α) : α :=
  (List.zipWith (fun a b => |a - b|) t1 t2).foldl max 0

/-- Model of `_count_matches` inside `FeatureExtractor._compute_sample_entropy`
(lines 286-293 of `features.py`): templates are the `N - tl` windows
`data[i : i+tl]`; every unordered pair of templates at Chebyshev distance
`< r` contributes 2 to the count. -/
def count_matches {α : Type} [LinearOrderedField α]
    [DecidableRel ((· < ·) : α → α → Prop)] (data : List α) (tl : ℕ) (r : α) : ℕ :=
  let templates := (List.range (data.length - tl)).map (fun i => (data.drop i).take tl)
  2 * (((List.range templates.length).map (fun i =>
    ((List.range templates.length).filter (fun j =>
      i < j ∧ chebDist (templates.getD i []) (templates.getD j []) < r)).length)).sum)

/-- Model of `FeatureExtractor._compute_sample_entropy` (lines 263-303) with
the explicit optional arguments `m` and `r`; callers that omit them get
`m = entropy_m` and `r = entropy_r_factor * np.std(data)`. Short signals
(`N < m + 2`) return 0.0 before any template matching; a zero match count on
either template length also returns 0.0; otherwise the value is
`-log(A / B)`. -/
noncomputable def compute_sample_entropy {α : Type} [LinearOrderedField α]
    [DecidableRel ((· < ·) : α → α → Prop)] (data : List α) (m : ℕ) (r : α) : ℝ :=
  if data.length < m + 2 then 0
  else
    let B := count_matches data m r
    let A := count_matches data (m + 1) r
    if B = 0 ∨ A = 0 then 0
    else -Real.log ((A : ℝ) / (B : ℝ))

/-- Value stored in a feature-table cell: pandas holds the string channel
label alongside float feature values. -/
inductive PdVal where
  | str (s : String)
  | num (x : ℝ)

/-- Model of `np.std` with the default `ddof=0`. -/
noncomputable def npStd (l : List ℚ) : ℝ := Real.sqrt ((npVar l : ℚ) : ℝ)

/-- Model of `scipy.stats.skew` with the default `bias=True`:
`m3 / m2 ** 1.5` on population central moments. -/
noncomputable def scipySkew (l : List ℚ) : ℝ :=
  ((centralMoment 3 l : ℚ) : ℝ) / ((centralMoment 2 l : ℚ) : ℝ) ^ ((3 : ℝ) / 2)

/-- Model of `np.sign` on a scalar. -/
def npSign (q : ℚ) : ℤ := if 0 < q then 1 else if q < 0 then -1 else 0

/-- Model of `np.sum(np.diff(np.sign(data)) != 0)` from
`_compute_time_features`. -/
def zero_crossings (l : List ℚ) : ℕ :=
  ((List.zipWith (fun a b => npSign b - npSign a) l l.tail).filter (fun d => d ≠ 0)).length

/-- Model of `np.ptp` (max minus min; empty input is out of scope). -/
def npPtp (l : List ℚ) : ℚ := l.foldl max (l.headD 0) - l.foldl min (l.headD 0)

/-- Model of the RMS entry `np.sqrt(np.mean(data ** 2))`. -/
noncomputable def rmsVal (l : List ℚ) : ℝ :=
  Real.sqrt ((npMean (l.map (fun x => x ^ 2)) : ℚ) : ℝ)

/-- Model of `FeatureExtractor._compute_time_features` (lines 208-226):
the ordered dict of the seven time-domain statistics. -/
noncomputable def compute_time_features (x : List ℚ) : List (String × PdVal) :=
  [("mean", .num ((npMean x : ℚ) : ℝ)),
   ("std", .num (npStd x)),
   ("skewness", .num (scipySkew x)),
   ("kurtosis", .num ((scipyKurtosis x : ℚ) : ℝ)),
   ("rms", .num (rmsVal x)),
   ("peak_to_peak", .num ((npPtp x : ℚ) : ℝ)),
   ("zero_crossings", .num ((zero_crossings x : ℕ) : ℝ))]

/-- Model of `FeatureExtractor._compute_hjorth` (lines 228-261): activity,
mobility and complexity with the `1e-10` guard denominators. -/
noncomputable def compute_hjorth (x : List ℚ) : List (String × PdVal) :=
  let d1 := List.zipWith (fun b a => b - a) x.tail x
  let d2 := List.zipWith (fun b a => b - a) d1.tail d1
  let activity := npVar x
  let mobility := Real.sqrt (((npVar d1 / (activity + 1 / 10 ^ 10)) : ℚ) : ℝ)
  let mobility_d1 := Real.sqrt (((npVar d2 / (npVar d1 + 1 / 10 ^ 10)) : ℚ) : ℝ)
  let complexity := mobility_d1 / (mobility + 1 / 10 ^ 10)
  [("hjorth_activity", .num ((activity : ℚ) : ℝ)),
   ("hjorth_mobility", .num mobility),
   ("hjorth_complexity", .num complexity)]

/-- Model of Python `int()` truncation toward zero on a rational float value. -/
def pyInt (q : ℚ) : ℤ := if 0 ≤ q then ⌊q⌋ else -⌊-q⌋

/-- Epoch step `int(epoch_length * (1 - overlap) * sfreq)` (line 70). -/
def epoch_step (L o sfreq : ℚ) : ℤ := pyInt (L * (1 - o) * sfreq)

/-- Epoch size `int(epoch_length * sfreq)` (line 71). -/
def epoch_samples (L sfreq : ℚ) : ℤ := pyInt (L * sfreq)

/-- Epoch count `(data.shape[1] - epoch_samples) // step + 1` (line 73),
with Python's floor division. -/
def n_epochs (n : ℕ) (L o sfreq : ℚ) : ℤ :=
  ((n : ℤ) - epoch_samples L sfreq).fdiv (epoch_step L o sfreq) + 1

/-- Epoch slices `(epoch_idx, start, end)` generated by the loop in
`extract_all_features` (lines 77-84): `start = epoch_idx * step`,
`end = start + epoch_samples`, with the `end > n` break dropping the
trailing partial epoch. -/
def epoch_slices (n : ℕ) (L o sfreq : ℚ) : List (ℕ × ℕ × ℕ) :=
  let es := (epoch_samples L sfreq).toNat
  let st := (epoch_step L o sfreq).toNat
  ((List.range (n_epochs n L o sfreq).toNat).map
    (fun i => (i, i * st, i * st + es))).takeWhile (fun t => t.2.2 ≤ n)

/-- Row assembly for one `(epoch, channel)` pair (lines 86-112): the ordered
feature dict, starting with `epoch_id` and `channel`, then the band-power dict
(which includes `total_power`), the relative powers, the time stats, the
Hjorth parameters and `sample_entropy`. Successive `dict.update` calls with
fresh keys are modelled as list concatenation. The `scipy.signal.welch` call
inside `_compute_band_powers` is abstracted as the `psdOf` parameter. -/
noncomputable def buildRow (psdOf : List ℚ → List (ℚ × ℚ)) (epochIdx : ℕ)
    (chName : String) (x : List ℚ) : List (String × PdVal) :=
  [("epoch_id", .num (epochIdx : ℝ)), ("channel", .str chName)]
    ++ (compute_band_powers (psdOf x)).map (fun p => (p.1, PdVal.num ((p.2 : ℚ) : ℝ)))
    ++ (compute_relative_band_powers (compute_band_powers (psdOf x))).map
        (fun p => (p.1, PdVal.num ((p.2 : ℚ) : ℝ)))
    ++ compute_time_features x
    ++ compute_hjorth x
    ++ [("sample_entropy", .num (compute_sample_entropy
          (x.map (fun q => (q : ℝ))) entropy_m ((entropy_r_factor : ℝ) * npStd x)))]

/-- Model of `FeatureExtractor.extract_all_features` (lines 46-115): the
per-epoch-per-channel feature table, one row per `(epoch, channel)` in loop
order. `data` is the `[channel][sample]` buffer; `n = data.shape[1]` is the
first channel's length. -/
noncomputable def extract_all_features (psdOf : List ℚ → List (ℚ × ℚ))
    (data : List (List ℚ)) (ch_names : List String) (sfreq L o : ℚ) :
    List (List (String × PdVal)) :=
  let n := (data.headD []).length
  let es := (epoch_samples L sfreq).toNat
  (epoch_slices n L o sfreq).flatMap (fun t =>
    (ch_names.zip data).map (fun c => buildRow psdOf t.1 c.1 ((c.2.drop t.2.1).take es)))

/-- Keys of a feature row, in order (the pandas column order). -/
def rowKeys (row : List (String × PdVal)) : List String := row.map Prod.fst

/-- Feature columns of a row: every column except `epoch_id` and `channel`. -/
def featureColumns (row : List (String × PdVal)) : List String :=
  (rowKeys row).filter (fun k => k ≠ "epoch_id" ∧ k ≠ "channel")

/-- Modelled from the spec: the §4.4 canonical feature-name order that claim
C1 asserts for the feature table's columns. -/
def canonical_feature_columns : List String :=
  ["band_delta", "band_theta", "band_alpha", "band_beta", "band_gamma",
   "rel_delta", "rel_theta", "rel_alpha", "rel_beta", "rel_gamma",
   "mean", "std", "skewness", "kurtosis", "rms", "peak_to_peak",
   "zero_crossings", "hjorth_activity", "hjorth_mobility", "hjorth_complexity",
   "sample_entropy"]

/-- Model of one entry of `scipy.stats.zscore` with the default `ddof=0`:
`(v - mean(vars)) / std(vars)`. When all variances coincide the divisor is 0
and the numerator is 0; the embedding's total division then gives 0, matching
the effect of scipy's NaN under the strict `> threshold` comparison. -/
noncomputable def zscoreVal (channel_vars : List ℚ) (v : ℚ) : ℝ :=
  ((v - npMean channel_vars : ℚ) : ℝ) / Real.sqrt ((npVar channel_vars : ℚ) : ℝ)

/-- Model of `PreprocessingPipeline.detect_bad_channels` (lines 161-216 of
`preprocessing.py`) on the EEG channels, each a `(name, data)` pair, with the
thresholds read from `artifact_config` (defaults 1e-6, 10, 5). First pass:
flat channels (`np.std < flat_threshold`), else high kurtosis
(`kurtosis > kurtosis_threshold`), each `continue`-ing. Second pass (only
with more than one channel): `|z-score of channel variance| > zscore_threshold`,
appending only names not already collected. -/
noncomputable def detect_bad_channels (flat_threshold kurtosis_threshold zscore_threshold : ℚ)
    (channels : List (String × List ℚ)) : List String :=
  let phase1 := channels.foldl (fun acc c =>
    if npStd c.2 < ((flat_threshold : ℚ) : ℝ) then acc ++ [c.1]
    else if kurtosis_threshold < scipyKurtosis c.2 then acc ++ [c.1]
    else acc) []
  if 1 < channels.length then
    let channel_vars := channels.map (fun c => npVar c.2)
    (channels.zip (channel_vars.map (fun v => zscoreVal channel_vars v))).foldl
      (fun acc cz =>
        if ((zscore_threshold : ℚ) : ℝ) < |cz.2| ∧ cz.1.1 ∉ acc then acc ++ [cz.1.1]
        else acc) phase1
  else phase1

/-- Python slice `arr[-n:]` on the time axis. Note `-0` is `0`, so `n = 0`
selects the whole array rather than an empty one. -/
def pySliceLast {α : Type} (n : ℕ) (l : List α) : List α :=
  if n = 0 then l else l.drop (l.length - n)

/-- Ring-buffer capacity `self.buffer_size = sfreq * buffer_seconds`
(`realtime.py` line 25). -/
def buffer_size (sfreq buffer_seconds : ℕ) : ℕ := sfreq * buffer_seconds

/-- Model of `RealtimeBuffer.append` (lines 38-58 of `realtime.py`). The
buffer holds columns (one entry per time sample); `none` models an absent
Redis key. Returns the newly stored buffer contents. -/
def RealtimeBuffer.append {α : Type} (C : ℕ) (current : Option (List α))
    (data : List α) : List α :=
  match current with
  | some cur =>
      let combined := cur ++ data
      if C < combined.length then pySliceLast C combined else combined
  | none => if C < data.length then pySliceLast C data else data

/-- Model of `RealtimeBuffer.get_data` (lines 60-78): `None` when the key is
absent; otherwise the trailing `int(duration_sec * sfreq)` samples (with the
Python `-0` slice quirk), or the whole buffer when no duration is given.
Negative durations are out of scope (`toNat` clamps). -/
def RealtimeBuffer.get_data {α : Type} (sfreq : ℕ) (current : Option (List α))
    (duration_sec : Option ℚ) : Option (List α) :=
  match current with
  | none => none
  | some d =>
    match duration_sec with
    | some dur => some (pySliceLast (pyInt (dur * sfreq)).toNat d)
    | none => some d

/-- Row of the `MLModel` metadata table, restricted to the fields
`promote_model` reads and writes. Missing metric keys model
`metrics.get(..., 0)` misses. -/
structure ModelRow where
  id : ℕ
  stage : String
  roc_auc : Option ℚ
  f1 : Option ℚ
deriving DecidableEq, Repr

/-- Outcome of the `promote_model` endpoint: HTTP 200, the two 400 threshold
rejections, the 400 invalid-stage rejection, or the 404. -/
inductive PromoteResult where
  | ok
  | invalidStage
  | rocBelowThreshold
  | f1BelowThreshold
  | notFound
deriving DecidableEq, Repr

/-- Model of the `promote_model` endpoint (`api/models.py` lines 144-204):
threshold checks for promotion to production (`metrics.get` with default 0),
demotion of the first existing production model when distinct from the target,
then the stage write; both writes are committed together. -/
def promote_model (db : List ModelRow) (model_id : ℕ) (new_stage : String)
    (thr_roc thr_f1 : ℚ) : List ModelRow × PromoteResult :=
  match db.find? (fun m => m.id = model_id) with
  | none => (db, .notFound)
  | some model =>
    if new_stage ≠ "candidate" ∧ new_stage ≠ "production" then (db, .invalidStage)
    else if new_stage = "production" ∧ model.roc_auc.getD 0 < thr_roc then
      (db, .rocBelowThreshold)
    else if new_stage = "production" ∧ model.f1.getD 0 < thr_f1 then
      (db, .f1BelowThreshold)
    else
      let db1 :=
        if new_stage = "production" then
          match db.find? (fun m => m.stage = "production") with
          | some current_prod =>
            if current_prod.id ≠ model.id then
              db.map (fun m =>
                if m.id = current_prod.id then { m with stage := "candidate" } else m)
            else db
          | none => db
        else db
      (db1.map (fun m => if m.id = model_id then { m with stage := new_stage } else m),
        .ok)

/-- Number of models in `production` stage. -/
def production_count (db : List ModelRow) : ℕ :=
  (db.filter (fun m => m.stage = "production")).length

/-- Job row fields touched by the worker tasks. -/
structure JobRow where
  status : String
  progress : ℚ
  log : String
  error : Option String
  startedAt : Option ℕ
  finishedAt : Option ℕ
deriving DecidableEq, Repr

/-- Recording row fields touched by the worker tasks. -/
structure RecordingRow where
  status : String
  sfreq : Option ℕ
  channels : Option ℕ
  processed_path : Option String
  features_path : Option String
  meta : List (String × String)
deriving DecidableEq, Repr

/-- Combined database state a worker mutates. -/
structure WorkerState where
  job : JobRow
  recording : RecordingRow
deriving DecidableEq, Repr

/-- Opaque run-time values interpolated into the preprocessing worker's
updates (config values, decoded metadata, artifact paths, timestamps). -/
structure PreprocParams where
  targetSfreqStr : String
  notchStr : String
  bandpassStr : String
  sfreqVal : ℕ
  channelsVal : ℕ
  badChannelsStr : String
  badPct : ℚ
  maxBadPct : ℚ
  icaStr : String
  icaInfoStr : String
  processedPathVal : String
  vizStr : String
  tDone : ℕ

/-- Database-visible mutations of the `try` block of `preprocess_recording`
(`tasks/preprocessing.py` lines 59-196), in program order. An exception can
interrupt the block after any number of these (the fallible external calls —
download, decode, filters, save, upload — sit between them and mutate no
database state). -/
def preprocess_try_steps (p : PreprocParams) : List (WorkerState → WorkerState) :=
  [fun s => { s with job := { s.job with
      progress := 1/10,
      log := s.job.log ++ "Downloading raw file...\n" } },
   fun s => { s with job := { s.job with
      progress := 2/10,
      log := s.job.log ++ "Reading raw file...\n" } },
   fun s => { s with recording := { s.recording with
      sfreq := some p.sfreqVal,
      channels := some p.channelsVal } },
   fun s => { s with job := { s.job with
      progress := 3/10,
      log := s.job.log ++ ("Resampling to " ++ p.targetSfreqStr ++ " Hz...\n") } },
   fun s => { s with job := { s.job with
      progress := 4/10,
      log := s.job.log ++ ("Applying notch filter at " ++ p.notchStr ++ " Hz...\n") } },
   fun s => { s with job := { s.job with
      progress := 5/10,
      log := s.job.log ++ ("Applying bandpass filter " ++ p.bandpassStr ++ " Hz...\n") } },
   fun s => { s with job := { s.job with
      progress := 6/10,
      log := s.job.log ++ "Detecting bad channels...\n" } },
   fun s => { s with job := { s.job with log := s.job.log ++ p.badChannelsStr } },
   fun s => if p.maxBadPct < p.badPct then
      { s with recording := { s.recording with
          status := "needs_review",
          meta := s.recording.meta ++ [("bad_channels", p.badChannelsStr)] } }
     else s,
   fun s => { s with job := { s.job with
      progress := 7/10,
      log := s.job.log ++ "Running ICA for artifact removal...\n" } },
   fun s => { s with
      job := { s.job with log := s.job.log ++ p.icaStr },
      recording := { s.recording with meta := s.recording.meta ++ [("ica_info", p.icaInfoStr)] } },
   fun s => { s with job := { s.job with
      progress := 85/100,
      log := s.job.log ++ "Saving cleaned data...\n" } },
   fun s => { s with recording := { s.recording with processed_path := some p.processedPathVal } },
   fun s => { s with job := { s.job with
      progress := 9/10,
      log := s.job.log ++ "Generating visualizations...\n" } },
   fun s => { s with recording := { s.recording with meta := s.recording.meta ++ [("visualizations", p.vizStr)] } },
   fun s => { s with recording := { s.recording with
      status := if s.recording.status ≠ "needs_review" then "processed" else "needs_review",
      sfreq := some p.sfreqVal } },
   fun s => { s with job := { s.job with
      status := "completed", progress := 1,
      finishedAt := some p.tDone,
      log := s.job.log ++ "Preprocessing completed successfully.\n" } }]

/-- Model of the `except` handler of `preprocess_recording` (lines 198-214):
fail the job, stamp `finished_at`, record the error, append the trailing
`ERROR:` log line, and set the recording status to `failed`. -/
def preprocess_except_handler (msg : String) (t : ℕ) (s : WorkerState) : WorkerState :=
  { job := { s.job with
      status := "failed", error := some msg, finishedAt := some t,
      log := s.job.log ++ ("\nERROR: " ++ msg ++ "\n") },
    recording := { s.recording with status := "failed" } }

/-- Opaque run-time values interpolated into the feature worker's updates. -/
structure FeatureParams where
  extractedStr : String
  featuresPathVal : String
  summaryStr : String
  tDone : ℕ

/-- Database-visible mutations of the `try` block of `extract_features_task`
(`tasks/features.py` lines 41-148), in program order. -/
def features_try_steps (p : FeatureParams) : List (WorkerState → WorkerState) :=
  [fun s => { s with job := { s.job with
      progress := 2/10,
      log := s.job.log ++ "Downloading processed file...\n" } },
   fun s => { s with job := { s.job with
      progress := 3/10,
      log := s.job.log ++ "Loading cleaned data...\n" } },
   fun s => { s with job := { s.job with
      progress := 5/10,
      log := s.job.log ++ "Extracting features...\n" } },
   fun s => { s with job := { s.job with log := s.job.log ++ p.extractedStr } },
   fun s => { s with job := { s.job with
      progress := 7/10,
      log := s.job.log ++ "Computing connectivity features...\n" } },
   fun s => { s with job := { s.job with
      progress := 85/100,
      log := s.job.log ++ "Saving features...\n" } },
   fun s => { s with recording := { s.recording with
      features_path := some p.featuresPathVal,
      meta := s.recording.meta ++ [("feature_summary", p.summaryStr)] } },
   fun s => { s with job := { s.job with
      status := "completed", progress := 1,
      finishedAt := some p.tDone,
      log := s.job.log ++ "Feature extraction completed successfully.\n" } }]

/-- Model of the `except` handler of `extract_features_task` (lines 150-160):
identical to the preprocessing handler except that the recording row is left
untouched. -/
def features_except_handler (msg : String) (t : ℕ) (s : WorkerState) : WorkerState :=
  { s with job := { s.job with
      status := "failed", error := some msg, finishedAt := some t,
      log := s.job.log ++ ("\nERROR: " ++ msg ++ "\n") } }

/-- Executing a worker `try` block that is interrupted by an exception after
`k` of its database-visible mutations: the first `k` steps are applied, then
the `except` handler runs and commits. -/
def run_with_failure {σ : Type} (steps : List (σ → σ)) (k : ℕ) (handler : σ → σ)
    (s : σ) : σ :=
  handler ((steps.take k).foldl (fun st f => f st) s)

/-- MLModel row fields touched by `train_model_task`. -/
structure TrainModelRow where
  stage : String
  s3_path : Option String
  metricsStr : Option String
deriving DecidableEq, Repr

/-- Opaque run-time values of the training worker. -/
structure TrainingParams where
  s3PathVal : String
  metricsStr : String
  metricsRoc : ℚ
  metricsF1 : ℚ
  thrRoc : ℚ
  thrF1 : ℚ

/-- Database-visible mutations of the `try` block of `train_model_task`
(`tasks/training.py` lines 67-256) on the model row: the artifact/metrics
write and the conditional auto-promotion to `candidate` (lines 241-245). -/
def training_try_steps (p : TrainingParams) : List (TrainModelRow → TrainModelRow) :=
  [fun m => { m with s3_path := some p.s3PathVal, metricsStr := some p.metricsStr },
   fun m => if p.thrRoc ≤ p.metricsRoc ∧ p.thrF1 ≤ p.metricsF1 then
      { m with stage := "candidate" } else m]

/-- Model of the `except` handler of `train_model_task` (lines 258-262):
`model.stage = 'failed'` followed by a commit. -/
def training_except_handler (m : TrainModelRow) : TrainModelRow :=
  { m with stage := "failed" }

/-- Modelled from the spec (§6): the documented model-stage value set. -/
def documented_model_stages : List String := ["development", "candidate", "production"]

/-- Trailing `n` elements of a list (all of it when `n` exceeds the length):
the mathematical "last n samples" the ring-buffer claims are stated with. -/
def lastN {α : Type} (n : ℕ) (l : List α) : List α := l.drop (l.length - n)

/-- Feature-column order the code actually produces: the canonical §4.4 order
with the extra `total_power` column between the absolute and relative band
powers. -/
def code_feature_columns : List String :=
  ["band_delta", "band_theta", "band_alpha", "band_beta", "band_gamma",
   "total_power",
   "rel_delta", "rel_theta", "rel_alpha", "rel_beta", "rel_gamma",
   "mean", "std", "skewness", "kurtosis", "rms", "peak_to_peak",
   "zero_crossings", "hjorth_activity", "hjorth_mobility", "hjorth_complexity",
   "sample_entropy"]

/-- Trapezoid integral of a Welch-grid band selection, indexed by grid
positions: points `k = a, ..., min b M` of the grid. -/
def gridBandPower (M : ℕ) (psd : ℕ → ℚ) (a b : ℕ) : ℚ :=
  trapz ((List.range' a (min (b + 1) (M + 1) - a)).map
    (fun (k : ℕ) => ((k : ℚ) / 2, psd k)))

section TrapzLemmas

/-- Unfolding equation: the trapezoid sum of a list with at least two points. -/
theorem trapz_cons_cons (p q : ℚ × ℚ) (l : List (ℚ × ℚ)) :
    trapz (p :: q :: l) = (q.1 - p.1) * (p.2 + q.2) / 2 + trapz (q :: l) := by
  simp [trapz]

/-- Splitting a trapezoid sum at an interior point shared by both halves. -/
theorem trapz_append_cons (xs : List (ℚ × ℚ)) (y : ℚ × ℚ) (ys : List (ℚ × ℚ)) :
    trapz (xs ++ y :: ys) = trapz (xs ++ [y]) + trapz (y :: ys) := by
  induction xs with
  | nil => simp [trapz]
  | cons x xs ih =>
    cases xs with
    | nil => simp [trapz_cons_cons, trapz]
    | cons x2 xs2 =>
      simp only [List.cons_append] at ih ⊢
      rw [trapz_cons_cons, trapz_cons_cons x x2, ih]
      ring

/-- Filtering `range n` by a closed interval of naturals gives a `range'`. -/
theorem range_filter_Icc (n a b : ℕ) :
    (List.range n).filter (fun k => a ≤ k ∧ k ≤ b)
      = List.range' a (min (b + 1) n - a) := by
  induction n with
  | zero => simp
  | succ n ih =>
    rw [List.range_succ, List.filter_append, ih]
    by_cases hab : a ≤ n ∧ n ≤ b
    · have h1 : min (b + 1) n = n := by omega
      have h2 : min (b + 1) (n + 1) = n + 1 := by omega
      simp only [List.filter_cons, List.filter_nil]
      rw [if_pos (by simpa using hab)]
      rw [h1, h2]
      have h3 : n + 1 - a = (n - a) + 1 := by omega
      rw [h3, List.range'_1_concat]
      have h4 : a + (n - a) = n := by omega
      rw [h4]
    · have h1 : min (b + 1) n - a = min (b + 1) (n + 1) - a := by omega
      simp only [List.filter_cons, List.filter_nil]
      rw [if_neg (by simpa using hab), h1]
      simp

/-- Band selection on the half-integer Welch grid, re-indexed to grid
positions: the ℚ-interval `[a/2, b/2]` selects exactly positions `a..min b M`. -/
theorem bandSelect_welchGrid (M : ℕ) (psd : ℕ → ℚ) (a b : ℕ) :
    bandSelect ((a : ℚ) / 2) ((b : ℚ) / 2) (welchGrid M psd)
      = (List.range' a (min (b + 1) (M + 1) - a)).map
          (fun (k : ℕ) => ((k : ℚ) / 2, psd k)) := by
  unfold bandSelect welchGrid
  rw [List.filter_map]
  rw [List.filter_congr (q := fun k => decide (a ≤ k ∧ k ≤ b)) ?_]
  · rw [range_filter_Icc]
  · intro k _
    simp only [Function.comp_apply, decide_eq_decide]
    rw [div_le_div_iff_of_pos_right (by norm_num : (0 : ℚ) < 2),
      div_le_div_iff_of_pos_right (by norm_num : (0 : ℚ) < 2), Nat.cast_le, Nat.cast_le]

/-- Splitting a grid band power at an interior boundary. -/
theorem gridBandPower_split (M : ℕ) (psd : ℕ → ℚ) (a bd b : ℕ)
    (h1 : a ≤ bd) (h2 : bd ≤ b) :
    gridBandPower M psd a b = gridBandPower M psd a bd + gridBandPower M psd bd b := by
  by_cases hM : bd ≤ M
  · have hmb : bd + 1 ≤ min (b + 1) (M + 1) := by omega
    have e1 : List.range' a (min (b + 1) (M + 1) - a)
        = List.range' a (bd - a) ++ List.range' bd (min (b + 1) (M + 1) - bd) := by
      have h := List.range'_append_1 a (bd - a) (min (b + 1) (M + 1) - bd)
      rw [show a + (bd - a) = bd by omega] at h
      rw [show min (b + 1) (M + 1) - a = min (b + 1) (M + 1) - bd + (bd - a) by omega]
      exact h.symm
    have e2 : List.range' bd (min (b + 1) (M + 1) - bd)
        = bd :: List.range' (bd + 1) (min (b + 1) (M + 1) - bd - 1) := by
      rw [show min (b + 1) (M + 1) - bd = (min (b + 1) (M + 1) - bd - 1) + 1 by omega,
        List.range'_succ]
      congr 2
    have e3 : List.range' a ((bd - a) + 1) = List.range' a (bd - a) ++ [bd] := by
      rw [List.range'_1_concat, show a + (bd - a) = bd by omega]
    unfold gridBandPower
    rw [show min (bd + 1) (M + 1) - a = (bd - a) + 1 by omega]
    rw [e1, e2, e3]
    simp only [List.map_append, List.map_cons, List.map_nil]
    exact trapz_append_cons _ _ _
  · have h1' : min (bd + 1) (M + 1) = min (b + 1) (M + 1) := by omega
    have h2' : min (b + 1) (M + 1) - bd = 0 := by omega
    unfold gridBandPower
    rw [h1', h2']
    simp [trapz]

end TrapzLemmas

section RelPowerLemmas

/-- Lemma: the divisor actually used for the relative band powers is always the
computed `total_power` — the `.get('total_power', 1e-10)` default is dead,
because `_compute_band_powers` always stores the `total_power` key. -/
theorem relDivisor_compute_band_powers (pts : List (ℚ × ℚ)) :
    relDivisor (compute_band_powers pts) = totalPower pts := rfl

/-- Lemma: the relative band powers of a computed band-power dict are exactly
`band / total_power` for each configured band. -/
theorem compute_relative_band_powers_eq (pts : List (ℚ × ℚ)) :
    compute_relative_band_powers (compute_band_powers pts)
      = defaultBands.map (fun b =>
          ("rel_" ++ b.name, trapz (bandSelect b.low b.high pts) / totalPower pts)) := rfl

/-- Lemma: each default band's ℚ-valued selection on the Welch grid equals the
corresponding grid-position selection. -/
theorem band_trapz_eq_grid (M : ℕ) (psd : ℕ → ℚ) (a b : ℕ) (lo hi : ℚ)
    (hlo : lo = (a : ℚ) / 2) (hhi : hi = (b : ℚ) / 2) :
    trapz (bandSelect lo hi (welchGrid M psd)) = gridBandPower M psd a b := by
  rw [hlo, hhi, bandSelect_welchGrid]
  rfl

/-- Lemma: the five default band powers on a half-integer Welch grid sum to the
1-45 Hz total power, by telescoping the trapezoid integrals at the shared
band boundaries (which all lie on the grid). -/
theorem band_powers_sum_to_total (M : ℕ) (psd : ℕ → ℚ) :
    gridBandPower M psd 2 8 + gridBandPower M psd 8 16 + gridBandPower M psd 16 24
      + gridBandPower M psd 24 60 + gridBandPower M psd 60 90
      = gridBandPower M psd 2 90 := by
  rw [gridBandPower_split M psd 2 8 90 (by norm_num) (by norm_num),
    gridBandPower_split M psd 8 16 90 (by norm_num) (by norm_num),
    gridBandPower_split M psd 16 24 90 (by norm_num) (by norm_num),
    gridBandPower_split M psd 24 60 90 (by norm_num) (by norm_num)]
  ring

end RelPowerLemmas

section ClaimC2C3

/-- C2 (amended): for every epoch/channel PSD on the half-integer Welch grid
(the grid `scipy.signal.welch` produces under the default
`welch_window_sec = 2.0` whenever `2·sfreq` is an integer, e.g. the pipeline
default 250 Hz), if the epoch's `total_power` is nonzero then the five
relative band powers `rel_delta + rel_theta + rel_alpha + rel_beta + rel_gamma`
sum to exactly 1 — hence within the claimed 1e-6 tolerance. The nonzero
hypothesis is forced: an all-zero epoch has `total_power = 0` and the code
divides by zero (see C3). -/
theorem claim_C2_rel_powers_sum_one (M : ℕ) (psd : ℕ → ℚ)
    (h : totalPower (welchGrid M psd) ≠ 0) :
    relSum (compute_band_powers (welchGrid M psd)) = 1 := by
  have g1 := band_trapz_eq_grid M psd 2 8 1 4 (by norm_num) (by norm_num)
  have g2 := band_trapz_eq_grid M psd 8 16 4 8 (by norm_num) (by norm_num)
  have g3 := band_trapz_eq_grid M psd 16 24 8 12 (by norm_num) (by norm_num)
  have g4 := band_trapz_eq_grid M psd 24 60 12 30 (by norm_num) (by norm_num)
  have g5 := band_trapz_eq_grid M psd 60 90 30 45 (by norm_num) (by norm_num)
  have gt : totalPower (welchGrid M psd) = gridBandPower M psd 2 90 :=
    band_trapz_eq_grid M psd 2 90 1 45 (by norm_num) (by norm_num)
  have hsum := band_powers_sum_to_total M psd
  have hT : gridBandPower M psd 2 90 ≠ 0 := by rw [← gt]; exact h
  rw [relSum, compute_relative_band_powers_eq]
  simp only [defaultBands, List.map_cons, List.map_nil, List.sum_cons, List.sum_nil]
  rw [g1, g2, g3, g4, g5, gt]
  field_simp
  linarith [hsum]

/-- C2 (counterexample to the claim as stated): a silent (all-zero) epoch has
an all-zero Welch PSD, so `total_power = 0`; the relative band powers are then
`0 / 0` and their sum is not within 1e-6 of 1.0 (in float semantics the
quotients are NaN; in the embedding's total division they are 0, and the sum
is 0). -/
theorem claim_C2_counterexample :
    ¬ (|relSum (compute_band_powers (welchGrid 4 (fun _ => 0))) - 1|
        ≤ 1 / 1000000) := by
  have h0 : relSum (compute_band_powers (welchGrid 4 (fun _ => 0))) = 0 := by
    rw [relSum, compute_relative_band_powers_eq]
    norm_num [defaultBands, totalPower, bandSelect, welchGrid, trapz, List.range_succ]
  rw [h0]
  norm_num

/-- C2 witness: instantiating the amended claim at the constant PSD 1. -/
theorem claim_C2_witness :
    totalPower (welchGrid 4 (fun _ => 1)) ≠ 0 ∧
    relSum (compute_band_powers (welchGrid 4 (fun _ => 1))) = 1 :=
  ⟨by norm_num [totalPower, bandSelect, welchGrid, trapz, List.range_succ],
    claim_C2_rel_powers_sum_one 4 (fun _ => 1)
      (by norm_num [totalPower, bandSelect, welchGrid, trapz, List.range_succ])⟩

/-- C3 (code bug): each relative band power is indeed `band / total_power`,
but the division-by-zero guard `band_powers.get('total_power', 1e-10)` is
dead code: `_compute_band_powers` always stores the `total_power` key, so the
divisor used is always the raw `total_power` — including when it is 0, as for
the all-zero PSD of a silent epoch, where the code divides by zero (NaN in
float semantics) instead of producing a guarded finite value. -/
theorem claim_C3_division_guard_dead :
    (∀ pts : List (ℚ × ℚ),
        compute_relative_band_powers (compute_band_powers pts)
          = defaultBands.map (fun b =>
              ("rel_" ++ b.name, trapz (bandSelect b.low b.high pts) / totalPower pts))
        ∧ relDivisor (compute_band_powers pts) = totalPower pts)
    ∧ relDivisor (compute_band_powers (welchGrid 4 (fun _ => 0))) = 0 :=
  ⟨fun pts => ⟨compute_relative_band_powers_eq pts, relDivisor_compute_band_powers pts⟩, by
    rw [relDivisor_compute_band_powers]
    norm_num [totalPower, bandSelect, welchGrid, trapz, List.range_succ]⟩

end ClaimC2C3

section ClaimC8C9

/-- Lemma: a fold over state transformers that all preserve the recording
status preserves the recording status. -/
theorem foldl_preserves_recording_status (L : List (WorkerState → WorkerState))
    (h : ∀ f ∈ L, ∀ s, (f s).recording.status = s.recording.status) :
    ∀ s : WorkerState,
      (L.foldl (fun st f => f st) s).recording.status = s.recording.status := by
  induction L with
  | nil => intro s; rfl
  | cons f L ih =>
    intro s
    rw [List.foldl_cons,
      ih (fun g hg => h g (List.mem_cons_of_mem f hg)) (f s),
      h f (List.mem_cons_self f L)]

/-- Lemma: no database-visible mutation of the feature worker's `try` block
touches the recording's status field. -/
theorem features_steps_preserve_status (p : FeatureParams) :
    ∀ f ∈ features_try_steps p, ∀ s, (f s).recording.status = s.recording.status := by
  intro f hf s
  simp only [features_try_steps, List.mem_cons, List.not_mem_nil, or_false] at hf
  rcases hf with h | h | h | h | h | h | h | h <;> subst h <;> rfl

/-- C8: any exception inside the preprocessing or feature-extraction worker —
at whatever point of the `try` block it interrupts — leaves the job failed
with `finished_at` stamped, the error message recorded, and a trailing
`ERROR:` log line; the recording's status becomes `failed` for the
preprocessing worker and is left unchanged by the feature worker. -/
theorem claim_C8_worker_failure_semantics (pp : PreprocParams) (fp : FeatureParams)
    (k1 k2 : ℕ) (msg1 msg2 : String) (t1 t2 : ℕ) (s1 s2 : WorkerState) :
    ((run_with_failure (preprocess_try_steps pp) k1 (preprocess_except_handler msg1 t1)
          s1).job.status = "failed"
      ∧ (run_with_failure (preprocess_try_steps pp) k1 (preprocess_except_handler msg1 t1)
          s1).job.finishedAt = some t1
      ∧ (run_with_failure (preprocess_try_steps pp) k1 (preprocess_except_handler msg1 t1)
          s1).job.error = some msg1
      ∧ (∃ pre, (run_with_failure (preprocess_try_steps pp) k1
          (preprocess_except_handler msg1 t1) s1).job.log
            = pre ++ ("\nERROR: " ++ msg1 ++ "\n"))
      ∧ (run_with_failure (preprocess_try_steps pp) k1 (preprocess_except_handler msg1 t1)
          s1).recording.status = "failed")
    ∧ ((run_with_failure (features_try_steps fp) k2 (features_except_handler msg2 t2)
          s2).job.status = "failed"
      ∧ (run_with_failure (features_try_steps fp) k2 (features_except_handler msg2 t2)
          s2).job.finishedAt = some t2
      ∧ (run_with_failure (features_try_steps fp) k2 (features_except_handler msg2 t2)
          s2).job.error = some msg2
      ∧ (∃ pre, (run_with_failure (features_try_steps fp) k2
          (features_except_handler msg2 t2) s2).job.log
            = pre ++ ("\nERROR: " ++ msg2 ++ "\n"))
      ∧ (run_with_failure (features_try_steps fp) k2 (features_except_handler msg2 t2)
          s2).recording.status = s2.recording.status) := by
  refine ⟨⟨rfl, rfl, rfl, ⟨_, rfl⟩, rfl⟩, ⟨rfl, rfl, rfl, ⟨_, rfl⟩, ?_⟩⟩
  exact foldl_preserves_recording_status ((features_try_steps fp).take k2)
    (fun f hf => features_steps_preserve_status fp f (List.take_subset _ _ hf)) s2

/-- C9: any exception inside `train_model_task` sets the model's stage to the
string `failed` — a value outside the documented stage set
{development, candidate, production} — and commits it. -/
theorem claim_C9_training_failure_stage (p : TrainingParams) (k : ℕ) (m0 : TrainModelRow) :
    (run_with_failure (training_try_steps p) k training_except_handler m0).stage = "failed"
    ∧ "failed" ∉ documented_model_stages :=
  ⟨rfl, by decide⟩

end ClaimC8C9

section ClaimC10

/-- C10: `_compute_sample_entropy` returns 0.0 for signals shorter than
`m + 2` samples (before any template matching); for longer signals it returns
`-log(A / B)` over the two pattern-match counts, and 0.0 whenever either
count is zero. -/
theorem claim_C10_sample_entropy (data : List ℚ) (m : ℕ) (r : ℚ) :
    (data.length < m + 2 → compute_sample_entropy data m r = 0)
    ∧ (m + 2 ≤ data.length →
        ((count_matches data m r = 0 ∨ count_matches data (m + 1) r = 0) →
            compute_sample_entropy data m r = 0)
        ∧ (count_matches data m r ≠ 0 → count_matches data (m + 1) r ≠ 0 →
            compute_sample_entropy data m r
              = -Real.log ((count_matches data (m + 1) r : ℝ)
                  / (count_matches data m r : ℝ)))) := by
  refine ⟨fun h => ?_, fun h => ⟨fun h0 => ?_, fun hB hA => ?_⟩⟩
  · simp [compute_sample_entropy, h]
  · simp [compute_sample_entropy, Nat.not_lt.mpr h, h0]
  · simp [compute_sample_entropy, Nat.not_lt.mpr h, hB, hA]

/-- C10 witness: the short-signal branch at a 3-sample signal, and the
`-log(A/B)` branch at a 5-sample constant signal where `B = 6` and `A = 2`. -/
theorem claim_C10_witness :
    (([0, 0, 0] : List ℚ).length < 2 + 2
      ∧ compute_sample_entropy ([0, 0, 0] : List ℚ) 2 1 = 0)
    ∧ (2 + 2 ≤ ([0, 0, 0, 0, 0] : List ℚ).length
      ∧ count_matches ([0, 0, 0, 0, 0] : List ℚ) 2 1 ≠ 0
      ∧ count_matches ([0, 0, 0, 0, 0] : List ℚ) 3 1 ≠ 0
      ∧ compute_sample_entropy ([0, 0, 0, 0, 0] : List ℚ) 2 1
          = -Real.log ((count_matches ([0, 0, 0, 0, 0] : List ℚ) 3 1 : ℝ)
              / (count_matches ([0, 0, 0, 0, 0] : List ℚ) 2 1 : ℝ))) := by
  have h6 : count_matches ([0, 0, 0, 0, 0] : List ℚ) 2 1 = 6 := by
    norm_num [count_matches, chebDist, List.range_succ]
  have h2 : count_matches ([0, 0, 0, 0, 0] : List ℚ) 3 1 = 2 := by
    norm_num [count_matches, chebDist, List.range_succ]
  refine ⟨⟨by norm_num, (claim_C10_sample_entropy [0, 0, 0] 2 1).1 (by norm_num)⟩,
    by norm_num, by rw [h6]; norm_num, by rw [h2]; norm_num, ?_⟩
  exact ((claim_C10_sample_entropy [0, 0, 0, 0, 0] 2 1).2 (by norm_num)).2
    (by rw [h6]; norm_num) (by rw [h2]; norm_num)

end ClaimC10

section ClaimC6

/-- Lemma: the trailing-`n` selection has length `min n (length l)`. -/
theorem lastN_length {α : Type} (n : ℕ) (l : List α) :
    (lastN n l).length = min n l.length := by
  simp [lastN]
  omega

/-- Lemma: taking at least the whole list trailing is the identity. -/
theorem lastN_of_le {α : Type} {n : ℕ} {l : List α} (h : l.length ≤ n) :
    lastN n l = l := by
  simp [lastN, Nat.sub_eq_zero_of_le h]

/-- Lemma: the truncate-to-capacity branch of `append` keeps exactly the
trailing `min (length) C` samples, for a positive capacity `C`. -/
theorem append_trailing {α : Type} (C : ℕ) (hC0 : C ≠ 0) (l : List α) :
    (if C < l.length then pySliceLast C l else l) = lastN (min l.length C) l := by
  split_ifs with h
  · rw [Nat.min_eq_right (by omega)]
    simp only [pySliceLast, if_neg hC0]
    rfl
  · rw [Nat.min_eq_left (by omega)]
    exact (lastN_of_le (le_refl _)).symm

/-- C6 (amended): appending to the ring buffer of capacity
`C = sfreq * buffer_seconds >= 1` stores exactly the trailing
`min (previous length + chunk length) C` samples of the concatenation, so the
length never exceeds `C`; reading with a duration returns `None` exactly when
the buffer key is absent, and otherwise the trailing
`int(duration * sfreq)` samples — except that a duration whose sample count
floors to 0 returns the whole buffer (Python's `[-0:]` slice), and a request
longer than the buffer returns the whole buffer. -/
theorem claim_C6_ring_buffer {α : Type} (sf bs : ℕ) (hC : 1 ≤ buffer_size sf bs)
    (sfreq : ℕ) (current : Option (List α)) (chunk : List α) (d : ℚ) :
    (RealtimeBuffer.append (buffer_size sf bs) current chunk
        = lastN (min ((current.getD []).length + chunk.length) (buffer_size sf bs))
            ((current.getD []) ++ chunk)
      ∧ (RealtimeBuffer.append (buffer_size sf bs) current chunk).length
          = min ((current.getD []).length + chunk.length) (buffer_size sf bs))
    ∧ (RealtimeBuffer.get_data sfreq current (some d) = none ↔ current = none)
    ∧ (∀ buf, current = some buf →
        RealtimeBuffer.get_data sfreq current (some d)
          = some (if (pyInt (d * sfreq)).toNat = 0 then buf
              else lastN ((pyInt (d * sfreq)).toNat) buf)) := by
  have hC0 : buffer_size sf bs ≠ 0 := by omega
  have happ : RealtimeBuffer.append (buffer_size sf bs) current chunk
      = lastN (min ((current.getD []).length + chunk.length) (buffer_size sf bs))
          ((current.getD []) ++ chunk) := by
    cases current with
    | none =>
      simp only [RealtimeBuffer.append, Option.getD_none, List.nil_append,
        List.length_nil, Nat.zero_add]
      exact append_trailing _ hC0 chunk
    | some cur =>
      simp only [RealtimeBuffer.append, Option.getD_some]
      rw [← List.length_append]
      exact append_trailing _ hC0 (cur ++ chunk)
  refine ⟨⟨happ, ?_⟩, ?_, ?_⟩
  · rw [happ, lastN_length]
    simp only [List.length_append]
    omega
  · cases current <;> simp [RealtimeBuffer.get_data]
  · intro buf hbuf
    subst hbuf
    rfl

/-- C6 (counterexample to the claim as stated): reading a 3-sample buffer with
duration 0 must return the trailing `int(0 * sfreq) = 0` samples according to
the claim, but the Python slice `[:, -0:]` returns the whole buffer. -/
theorem claim_C6_counterexample :
    (pyInt ((0 : ℚ) * ((10 : ℕ) : ℚ))).toNat = 0
    ∧ RealtimeBuffer.get_data 10 (some ([1, 2, 3] : List ℤ)) (some 0) = some [1, 2, 3]
    ∧ some ([1, 2, 3] : List ℤ) ≠ some (lastN 0 ([1, 2, 3] : List ℤ)) := by
  have h0 : (pyInt ((0 : ℚ) * ((10 : ℕ) : ℚ))).toNat = 0 := by
    norm_num [pyInt]
  refine ⟨h0, ?_, by simp [lastN]⟩
  show some (pySliceLast (pyInt ((0 : ℚ) * ((10 : ℕ) : ℚ))).toNat [1, 2, 3]) = _
  rw [h0]
  rfl

/-- C6 witness: the amended claim instantiated at a capacity-6 buffer holding
one sample, a one-sample chunk, and a 1-second read at 2 Hz. -/
theorem claim_C6_witness :
    1 ≤ buffer_size 2 3
    ∧ ((RealtimeBuffer.append (buffer_size 2 3) (some [(5 : ℤ)]) [7]
          = lastN (min (((some [(5 : ℤ)]).getD []).length + [(7 : ℤ)].length)
              (buffer_size 2 3)) (((some [(5 : ℤ)]).getD []) ++ [7])
        ∧ (RealtimeBuffer.append (buffer_size 2 3) (some [(5 : ℤ)]) [7]).length
            = min (((some [(5 : ℤ)]).getD []).length + [(7 : ℤ)].length) (buffer_size 2 3))
      ∧ (RealtimeBuffer.get_data 2 (some [(5 : ℤ)]) (some 1) = none
          ↔ some [(5 : ℤ)] = none)
      ∧ (∀ buf, some [(5 : ℤ)] = some buf →
          RealtimeBuffer.get_data 2 (some [(5 : ℤ)]) (some 1)
            = some (if (pyInt ((1 : ℚ) * (2 : ℕ))).toNat = 0 then buf
                else lastN ((pyInt ((1 : ℚ) * (2 : ℕ))).toNat) buf))) :=
  ⟨by decide, claim_C6_ring_buffer 2 3 (by decide) 2 (some [5]) [7] 1⟩

end ClaimC6

section ClaimC5C1

/-- Lemma: with a positive step and a buffer at least one epoch long, the
Python epoch count agrees with the natural-number floor formula. -/
theorem n_epochs_toNat (n : ℕ) (L o sfreq : ℚ)
    (hst : 1 ≤ epoch_step L o sfreq) (hes : 0 ≤ epoch_samples L sfreq)
    (hn : (epoch_samples L sfreq).toNat ≤ n) :
    (n_epochs n L o sfreq).toNat
      = (n - (epoch_samples L sfreq).toNat) / (epoch_step L o sfreq).toNat + 1 := by
  obtain ⟨st, hstq⟩ : ∃ st : ℕ, epoch_step L o sfreq = (st : ℤ) :=
    ⟨(epoch_step L o sfreq).toNat, by omega⟩
  obtain ⟨es, hesq⟩ : ∃ es : ℕ, epoch_samples L sfreq = (es : ℤ) :=
    ⟨(epoch_samples L sfreq).toNat, by omega⟩
  have hstn : (epoch_step L o sfreq).toNat = st := by omega
  have hesn : (epoch_samples L sfreq).toNat = es := by omega
  rw [hstn, hesn]
  unfold n_epochs
  rw [hstq, hesq, Int.fdiv_eq_ediv _ (by omega)]
  rw [show (n : ℤ) - (es : ℤ) = ((n - es : ℕ) : ℤ) by omega]
  have hX : ((n - es : ℕ) : ℤ) / ((st : ℕ) : ℤ) = (((n - es) / st : ℕ) : ℤ) := by
    exact_mod_cast (Int.ofNat_ediv (n - es) st).symm
  rw [hX]
  rw [show (((n - es) / st : ℕ) : ℤ) + 1 = (((n - es) / st + 1 : ℕ) : ℤ) by push_cast; ring]
  exact Int.toNat_natCast _

/-- Lemma: every epoch index up to the floor-formula count fits inside the
buffer. -/
theorem epoch_index_fits (n es st : ℕ) (hst : 1 ≤ st) (hn : es ≤ n) :
    ∀ i ≤ (n - es) / st, i * st + es ≤ n := by
  intro i hi
  have h1 : i * st ≤ ((n - es) / st) * st := Nat.mul_le_mul_right st hi
  have h2 : ((n - es) / st) * st ≤ n - es := Nat.div_mul_le_self _ _
  omega

/-- Lemma: under the same conditions the `end > n` break never fires, and the
slice list is exactly the first `floor((n - es)/st) + 1` windows. -/
theorem epoch_slices_eq (n : ℕ) (L o sfreq : ℚ)
    (hst : 1 ≤ epoch_step L o sfreq) (hes : 0 ≤ epoch_samples L sfreq)
    (hn : (epoch_samples L sfreq).toNat ≤ n) :
    epoch_slices n L o sfreq
      = (List.range
            ((n - (epoch_samples L sfreq).toNat) / (epoch_step L o sfreq).toNat + 1)).map
          (fun i => (i, i * (epoch_step L o sfreq).toNat,
            i * (epoch_step L o sfreq).toNat + (epoch_samples L sfreq).toNat)) := by
  unfold epoch_slices
  rw [n_epochs_toNat n L o sfreq hst hes hn]
  rw [List.takeWhile_eq_self_iff.mpr ?_]
  intro t ht
  obtain ⟨i, hi, rfl⟩ := List.mem_map.mp ht
  rw [List.mem_range] at hi
  simpa using epoch_index_fits n (epoch_samples L sfreq).toNat
    (epoch_step L o sfreq).toNat (by omega) hn i (by omega)

/-- C5: epoching inside `extract_all_features` with positive step and at
least one epoch's worth of samples produces windows of exactly
`int(L * sfreq)` samples starting at consecutive multiples of
`int(L * (1 - o) * sfreq)`, all inside the buffer (the trailing partial epoch
is dropped), and the number of epochs is `floor((n - es)/st) + 1`. -/
theorem claim_C5_epoching (n : ℕ) (L o sfreq : ℚ)
    (hst : 1 ≤ epoch_step L o sfreq) (hes : 0 ≤ epoch_samples L sfreq)
    (hn : (epoch_samples L sfreq).toNat ≤ n) :
    epoch_slices n L o sfreq
      = (List.range
            ((n - (epoch_samples L sfreq).toNat) / (epoch_step L o sfreq).toNat + 1)).map
          (fun i => (i, i * (epoch_step L o sfreq).toNat,
            i * (epoch_step L o sfreq).toNat + (epoch_samples L sfreq).toNat))
    ∧ (∀ t ∈ epoch_slices n L o sfreq,
        t.2.2 ≤ n ∧ t.2.2 - t.2.1 = (epoch_samples L sfreq).toNat)
    ∧ (∀ ch : List ℚ, ch.length = n → ∀ t ∈ epoch_slices n L o sfreq,
        ((ch.drop t.2.1).take (epoch_samples L sfreq).toNat).length
          = (epoch_samples L sfreq).toNat) := by
  have h := epoch_slices_eq n L o sfreq hst hes hn
  have hfit := epoch_index_fits n (epoch_samples L sfreq).toNat
    (epoch_step L o sfreq).toNat (by omega) hn
  refine ⟨h, ?_, ?_⟩
  · intro t ht
    rw [h] at ht
    obtain ⟨i, hi, rfl⟩ := List.mem_map.mp ht
    rw [List.mem_range] at hi
    refine ⟨hfit i (by omega), ?_⟩
    show i * (epoch_step L o sfreq).toNat + (epoch_samples L sfreq).toNat
        - i * (epoch_step L o sfreq).toNat = (epoch_samples L sfreq).toNat
    omega
  · intro ch hch t ht
    rw [h] at ht
    obtain ⟨i, hi, rfl⟩ := List.mem_map.mp ht
    rw [List.mem_range] at hi
    have hfit2 := hfit i (by omega)
    show ((ch.drop (i * (epoch_step L o sfreq).toNat)).take
        (epoch_samples L sfreq).toNat).length = (epoch_samples L sfreq).toNat
    simp only [List.length_take, List.length_drop, hch]
    omega

/-- C5 witness: the defaults `L = 2.0`, `o = 0.5` at 250 Hz on a 1000-sample
buffer (step 250, epoch 500 samples, 3 epochs). -/
theorem claim_C5_witness :
    (1 ≤ epoch_step 2 (1/2) 250 ∧ 0 ≤ epoch_samples 2 250
      ∧ (epoch_samples 2 250).toNat ≤ 1000)
    ∧ (epoch_slices 1000 2 (1/2) 250
        = (List.range
              ((1000 - (epoch_samples 2 250).toNat) / (epoch_step 2 (1/2) 250).toNat + 1)).map
            (fun i => (i, i * (epoch_step 2 (1/2) 250).toNat,
              i * (epoch_step 2 (1/2) 250).toNat + (epoch_samples 2 250).toNat))
      ∧ (∀ t ∈ epoch_slices 1000 2 (1/2) 250,
          t.2.2 ≤ 1000 ∧ t.2.2 - t.2.1 = (epoch_samples 2 250).toNat)
      ∧ (∀ ch : List ℚ, ch.length = 1000 → ∀ t ∈ epoch_slices 1000 2 (1/2) 250,
          ((ch.drop t.2.1).take (epoch_samples 2 250).toNat).length
            = (epoch_samples 2 250).toNat)) := by
  have h1 : epoch_step 2 (1/2) 250 = 250 := by
    rw [epoch_step, pyInt, if_pos (by norm_num)]
    norm_num
  have h2 : epoch_samples 2 250 = 500 := by
    rw [epoch_samples, pyInt, if_pos (by norm_num)]
    norm_num
  have hh : 1 ≤ epoch_step 2 (1/2) 250 ∧ 0 ≤ epoch_samples 2 250
      ∧ (epoch_samples 2 250).toNat ≤ 1000 := by
    rw [h1, h2]
    norm_num
  exact ⟨hh, claim_C5_epoching 1000 2 (1/2) 250 hh.1 hh.2.1 hh.2.2⟩

/-- Lemma: every row the extractor builds has the same ordered key list:
`epoch_id`, `channel`, then the code's feature-column order (which includes
`total_power`). -/
theorem rowKeys_buildRow (psdOf : List ℚ → List (ℚ × ℚ)) (i : ℕ) (nm : String)
    (x : List ℚ) :
    rowKeys (buildRow psdOf i nm x) = ["epoch_id", "channel"] ++ code_feature_columns := rfl

/-- C1 (amended): every row of the per-epoch-per-channel feature table has its
columns in the order `epoch_id`, `channel`, then the canonical §4.4 feature
order — except that the extra `total_power` column sits between `band_gamma`
and `rel_delta`; and the row count is epochs × channels. -/
theorem claim_C1_feature_table (psdOf : List ℚ → List (ℚ × ℚ)) (data : List (List ℚ))
    (ch_names : List String) (sfreq L o : ℚ)
    (hst : 1 ≤ epoch_step L o sfreq) (hes : 0 ≤ epoch_samples L sfreq)
    (hn : (epoch_samples L sfreq).toNat ≤ (data.headD []).length)
    (hch : ch_names.length = data.length) :
    (∀ row ∈ extract_all_features psdOf data ch_names sfreq L o,
        rowKeys row = ["epoch_id", "channel"] ++ code_feature_columns)
    ∧ (extract_all_features psdOf data ch_names sfreq L o).length
        = (n_epochs (data.headD []).length L o sfreq).toNat * ch_names.length := by
  constructor
  · intro row hrow
    unfold extract_all_features at hrow
    obtain ⟨t, ht, hrow2⟩ := List.mem_flatMap.mp hrow
    obtain ⟨c, hc, rfl⟩ := List.mem_map.mp hrow2
    exact rowKeys_buildRow _ _ _ _
  · unfold extract_all_features
    rw [List.length_flatMap]
    have hz : (ch_names.zip data).length = ch_names.length := by
      rw [List.length_zip, hch, Nat.min_self]
    simp only [Function.comp_def, List.length_map]
    rw [List.map_const', List.sum_replicate, smul_eq_mul, hz]
    congr 1
    rw [epoch_slices_eq _ _ _ _ hst hes hn, List.length_map, List.length_range,
      n_epochs_toNat _ _ _ _ hst hes hn]

/-- C1 (counterexample to the claim as stated): on a one-channel two-sample
buffer the single row's feature columns are not the canonical §4.4 list — the
code emits the extra `total_power` column between `band_gamma` and
`rel_delta`. -/
theorem claim_C1_counterexample :
    featureColumns ((extract_all_features (fun _ => []) [[0, 0]] ["Cz"] 1 2 (1/2)).headD [])
      ≠ canonical_feature_columns := by
  have h1 : epoch_step 2 (1/2) 1 = 1 := by
    rw [epoch_step, pyInt, if_pos (by norm_num)]
    norm_num
  have h2 : epoch_samples 2 1 = 2 := by
    rw [epoch_samples, pyInt, if_pos (by norm_num)]
    norm_num
  have hslices : epoch_slices 2 2 (1/2) 1 = [(0, 0, 2)] := by
    rw [epoch_slices_eq 2 2 (1/2) 1 (by rw [h1]) (by rw [h2]; norm_num)
      (by rw [h2]; norm_num)]
    rw [h1, h2]
    rfl
  have hrow : (extract_all_features (fun _ => []) [[0, 0]] ["Cz"] 1 2 (1/2)).headD []
      = buildRow (fun _ => []) 0 "Cz" [0, 0] := by
    show ((epoch_slices (([[0, 0]] : List (List ℚ)).headD []).length 2 (1/2) 1).flatMap
        (fun t => (["Cz"].zip [[0, 0]]).map (fun c => buildRow (fun _ => []) t.1 c.1
          ((c.2.drop t.2.1).take (epoch_samples 2 1).toNat)))).headD [] = _
    rw [show ((([[0, 0]] : List (List ℚ)).headD []).length) = 2 from rfl, hslices, h2]
    rfl
  rw [hrow, featureColumns, rowKeys_buildRow]
  decide

/-- C1 witness: the amended claim instantiated at the same one-channel
two-sample buffer. -/
theorem claim_C1_witness :
    (1 ≤ epoch_step 2 (1/2) 1 ∧ 0 ≤ epoch_samples 2 1
      ∧ (epoch_samples 2 1).toNat ≤ (([[0, 0]] : List (List ℚ)).headD []).length
      ∧ ["Cz"].length = [[(0 : ℚ), 0]].length)
    ∧ ((∀ row ∈ extract_all_features (fun _ => []) [[0, 0]] ["Cz"] 1 2 (1/2),
          rowKeys row = ["epoch_id", "channel"] ++ code_feature_columns)
      ∧ (extract_all_features (fun _ => []) [[0, 0]] ["Cz"] 1 2 (1/2)).length
          = (n_epochs (([[0, 0]] : List (List ℚ)).headD []).length 2 (1/2) 1).toNat
              * ["Cz"].length) := by
  have h1 : epoch_step 2 (1/2) 1 = 1 := by
    rw [epoch_step, pyInt, if_pos (by norm_num)]
    norm_num
  have h2 : epoch_samples 2 1 = 2 := by
    rw [epoch_samples, pyInt, if_pos (by norm_num)]
    norm_num
  have hh : 1 ≤ epoch_step 2 (1/2) 1 ∧ 0 ≤ epoch_samples 2 1
      ∧ (epoch_samples 2 1).toNat ≤ (([[0, 0]] : List (List ℚ)).headD []).length
      ∧ ["Cz"].length = [[(0 : ℚ), 0]].length := by
    rw [h1, h2]
    norm_num
  exact ⟨hh, claim_C1_feature_table (fun _ => []) [[0, 0]] ["Cz"] 1 2 (1/2)
    hh.1 hh.2.1 hh.2.2.1 hh.2.2.2⟩

end ClaimC5C1

section ClaimC7

/-- Lemma: with primary-key-unique ids, at most one row matches a given id. -/
theorem countP_id_le_one (db : List ModelRow) (tid : ℕ)
    (hids : (db.map (fun m => m.id)).Nodup) :
    db.countP (fun m => m.id == tid) ≤ 1 := by
  have h := List.nodup_iff_count_le_one.mp hids tid
  rw [List.count, List.countP_map] at h
  exact le_trans (le_of_eq (List.countP_congr (fun m _ => Iff.rfl))) h

/-- Lemma: with at most one production model, any two production members of
the table coincide. -/
theorem production_unique (db : List ModelRow) (hprod : production_count db ≤ 1)
    {m1 m2 : ModelRow} (h1 : m1 ∈ db) (h2 : m2 ∈ db)
    (p1 : m1.stage = "production") (p2 : m2.stage = "production") : m1 = m2 := by
  unfold production_count at hprod
  have hm1 : m1 ∈ db.filter (fun m => m.stage = "production") :=
    List.mem_filter.mpr ⟨h1, by simp [p1]⟩
  have hm2 : m2 ∈ db.filter (fun m => m.stage = "production") :=
    List.mem_filter.mpr ⟨h2, by simp [p2]⟩
  cases hfl : db.filter (fun m => m.stage = "production") with
  | nil =>
    rw [hfl] at hm1
    exact absurd hm1 (List.not_mem_nil m1)
  | cons x rest =>
    cases rest with
    | nil =>
      rw [hfl] at hm1 hm2
      rw [List.mem_singleton.mp hm1, List.mem_singleton.mp hm2]
    | cons y rest2 =>
      rw [hfl] at hprod
      simp at hprod

/-- Lemma: a stage-rewriting map that only ever produces `production` on rows
with a fixed id keeps the production count at most one, given unique ids. -/
theorem production_count_map_le_one (db : List ModelRow) (u : ModelRow → ModelRow)
    (tid : ℕ) (hids : (db.map (fun m => m.id)).Nodup)
    (h : ∀ m ∈ db, (u m).stage = "production" → m.id = tid) :
    production_count (db.map u) ≤ 1 := by
  unfold production_count
  rw [← List.countP_eq_length_filter, List.countP_map]
  refine le_trans (List.countP_mono_left (q := fun m => m.id == tid) ?_)
    (countP_id_le_one db tid hids)
  intro m hm hp
  simp only [Function.comp_apply, decide_eq_true_eq] at hp
  simpa using h m hm hp

/-- Lemma: a map that never turns a non-production row into production does
not increase the production count. -/
theorem production_count_map_mono (db : List ModelRow) (u : ModelRow → ModelRow)
    (h : ∀ m ∈ db, (u m).stage = "production" → m.stage = "production") :
    production_count (db.map u) ≤ production_count db := by
  unfold production_count
  rw [← List.countP_eq_length_filter, ← List.countP_eq_length_filter, List.countP_map]
  refine List.countP_mono_left ?_
  intro m hm hp
  simp only [Function.comp_apply, decide_eq_true_eq] at hp
  simpa using h m hm hp

/-- Unfolding equation of `promote_model` when the target model id is absent. -/
theorem promote_model_none (db : List ModelRow) (mid : ℕ) (ns : String)
    (tr tf : ℚ) (hfind : db.find? (fun m => m.id = mid) = none) :
    promote_model db mid ns tr tf = (db, .notFound) := by
  unfold promote_model
  rw [hfind]

/-- Unfolding equation of `promote_model` when the target model is found. -/
theorem promote_model_some (db : List ModelRow) (mid : ℕ) (ns : String)
    (tr tf : ℚ) (model : ModelRow)
    (hfind : db.find? (fun m => m.id = mid) = some model) :
    promote_model db mid ns tr tf
      = (if ns ≠ "candidate" ∧ ns ≠ "production" then (db, .invalidStage)
         else if ns = "production" ∧ model.roc_auc.getD 0 < tr then
           (db, .rocBelowThreshold)
         else if ns = "production" ∧ model.f1.getD 0 < tf then
           (db, .f1BelowThreshold)
         else
           ((if ns = "production" then
               match db.find? (fun m => m.stage = "production") with
               | some current_prod =>
                 if current_prod.id ≠ model.id then
                   db.map (fun m =>
                     if m.id = current_prod.id then { m with stage := "candidate" } else m)
                 else db
               | none => db
             else db).map
              (fun m => if m.id = mid then { m with stage := ns } else m),
            .ok)) := by
  unfold promote_model
  rw [hfind]

/-- C7: promotion to production succeeds only when the model's `roc_auc` and
`f1` metrics (with `metrics.get` default 0) meet the configured thresholds;
on success every other production model is rewritten to `candidate` in the
same committed write; and — starting from a table with at most one production
model and unique ids — every promote operation, whatever its target stage,
preserves the at-most-one-production invariant. -/
theorem claim_C7_promotion (db : List ModelRow) (model_id : ℕ) (new_stage : String)
    (thr_roc thr_f1 : ℚ) (hids : (db.map (fun m => m.id)).Nodup)
    (hprod : production_count db ≤ 1) :
    ((promote_model db model_id "production" thr_roc thr_f1).2 = .ok →
      ∃ m ∈ db, m.id = model_id ∧ thr_roc ≤ m.roc_auc.getD 0 ∧ thr_f1 ≤ m.f1.getD 0)
    ∧ ((promote_model db model_id "production" thr_roc thr_f1).2 = .ok →
      ∀ m ∈ db, m.stage = "production" → m.id ≠ model_id →
        { m with stage := "candidate" }
          ∈ (promote_model db model_id "production" thr_roc thr_f1).1)
    ∧ production_count (promote_model db model_id new_stage thr_roc thr_f1).1 ≤ 1 := by
  refine ⟨?_, ?_, ?_⟩
  · intro hok
    cases hfind : db.find? (fun m => m.id = model_id) with
    | none => rw [promote_model_none db model_id _ _ _ hfind] at hok; simp at hok
    | some model =>
      rw [promote_model_some db model_id _ _ _ model hfind] at hok
      rw [if_neg (by simp)] at hok
      have hmem := List.mem_of_find?_eq_some hfind
      have hid : model.id = model_id := by simpa using List.find?_some hfind
      by_cases hroc : model.roc_auc.getD 0 < thr_roc
      · rw [if_pos ⟨rfl, hroc⟩] at hok
        simp at hok
      · rw [if_neg (by simp [hroc])] at hok
        by_cases hf1 : model.f1.getD 0 < thr_f1
        · rw [if_pos ⟨rfl, hf1⟩] at hok
          simp at hok
        · exact ⟨model, hmem, hid, le_of_not_lt hroc, le_of_not_lt hf1⟩
  · intro hok m hm hmprod hmid
    cases hfind : db.find? (fun m => m.id = model_id) with
    | none => rw [promote_model_none db model_id _ _ _ hfind] at hok; simp at hok
    | some model =>
      rw [promote_model_some db model_id _ _ _ model hfind] at hok ⊢
      rw [if_neg (by simp)] at hok ⊢
      have hid : model.id = model_id := by simpa using List.find?_some hfind
      by_cases hroc : model.roc_auc.getD 0 < thr_roc
      · rw [if_pos ⟨rfl, hroc⟩] at hok
        simp at hok
      · rw [if_neg (by simp [hroc])] at hok ⊢
        by_cases hf1 : model.f1.getD 0 < thr_f1
        · rw [if_pos ⟨rfl, hf1⟩] at hok
          simp at hok
        · rw [if_neg (by simp [hf1])] at hok ⊢
          rw [if_pos rfl]
          have hsome : ∃ pr, db.find? (fun x => x.stage = "production") = some pr := by
            have hs : (db.find? (fun x => x.stage = "production")).isSome := by
              rw [List.find?_isSome]
              exact ⟨m, hm, by simp [hmprod]⟩
            exact Option.isSome_iff_exists.mp hs
          obtain ⟨pr, hpr⟩ := hsome
          have hprmem := List.mem_of_find?_eq_some hpr
          have hprprod : pr.stage = "production" := by simpa using List.find?_some hpr
          have hmpr : m = pr := production_unique db hprod hm hprmem hmprod hprprod
          rw [hpr]
          dsimp only
          rw [if_pos (by rw [← hmpr, hid]; exact hmid)]
          rw [List.map_map]
          refine List.mem_map.mpr ⟨m, hm, ?_⟩
          simp only [Function.comp_apply]
          rw [if_pos (show m.id = pr.id from by rw [hmpr])]
          rw [if_neg (show ¬(({ m with stage := "candidate" } : ModelRow).id = model_id)
            from by simpa using hmid)]
  · cases hfind : db.find? (fun m => m.id = model_id) with
    | none =>
      rw [promote_model_none db model_id _ _ _ hfind]
      exact hprod
    | some model =>
      rw [promote_model_some db model_id _ _ _ model hfind]
      have hid : model.id = model_id := by simpa using List.find?_some hfind
      by_cases hinv : new_stage ≠ "candidate" ∧ new_stage ≠ "production"
      · rw [if_pos hinv]
        exact hprod
      · rw [if_neg hinv]
        by_cases hroc : new_stage = "production" ∧ model.roc_auc.getD 0 < thr_roc
        · rw [if_pos hroc]
          exact hprod
        · rw [if_neg hroc]
          by_cases hf1 : new_stage = "production" ∧ model.f1.getD 0 < thr_f1
          · rw [if_pos hf1]
            exact hprod
          · rw [if_neg hf1]
            by_cases hns : new_stage = "production"
            · subst hns
              rw [if_pos rfl]
              cases hprfind : db.find? (fun x => x.stage = "production") with
              | none =>
                dsimp only
                have hzero : ∀ x ∈ db, ¬(x.stage = "production") := by
                  intro x hx hxs
                  have hnone := List.find?_eq_none.mp hprfind x hx
                  simp [hxs] at hnone
                refine production_count_map_le_one db _ model_id hids ?_
                intro x hx hxs
                by_cases hxid : x.id = model_id
                · exact hxid
                · rw [if_neg hxid] at hxs
                  exact absurd hxs (hzero x hx)
              | some pr =>
                dsimp only
                have hprmem := List.mem_of_find?_eq_some hprfind
                have hprprod : pr.stage = "production" := by
                  simpa using List.find?_some hprfind
                by_cases hprid : pr.id ≠ model.id
                · rw [if_pos hprid, List.map_map]
                  refine production_count_map_le_one db _ model_id hids ?_
                  intro x hx hxs
                  simp only [Function.comp_apply] at hxs
                  by_cases hxid : x.id = pr.id
                  · rw [if_pos hxid] at hxs
                    by_cases hxid2 : ({ x with stage := "candidate" } : ModelRow).id = model_id
                    · rw [if_pos hxid2] at hxs
                      simpa using hxid2
                    · rw [if_neg hxid2] at hxs
                      simp at hxs
                  · rw [if_neg hxid] at hxs
                    by_cases hxid2 : x.id = model_id
                    · exact hxid2
                    · rw [if_neg hxid2] at hxs
                      have hxpr := production_unique db hprod hx hprmem hxs hprprod
                      rw [hxpr] at hxid
                      simp at hxid
                · rw [if_neg hprid]
                  refine production_count_map_le_one db _ model_id hids ?_
                  intro x hx hxs
                  by_cases hxid : x.id = model_id
                  · exact hxid
                  · rw [if_neg hxid] at hxs
                    have hxpr := production_unique db hprod hx hprmem hxs hprprod
                    rw [hxpr]
                    push_neg at hprid
                    rw [hprid, hid]
            · rw [if_neg hns]
              refine le_trans (production_count_map_mono db _ ?_) hprod
              intro x hx hxs
              by_cases hxid : x.id = model_id
              · rw [if_pos hxid] at hxs
                exact absurd hxs hns
              · rwa [if_neg hxid] at hxs

/-- C7 witness: a two-row table where the candidate model 2 (metrics 0.9/0.8)
is promoted over the production model 1. -/
theorem claim_C7_witness :
    ((([⟨1, "production", some (9/10), some (9/10)⟩,
        ⟨2, "candidate", some (9/10), some (8/10)⟩] : List ModelRow).map
          (fun m => m.id)).Nodup
      ∧ production_count [⟨1, "production", some (9/10), some (9/10)⟩,
          ⟨2, "candidate", some (9/10), some (8/10)⟩] ≤ 1)
    ∧ (((promote_model [⟨1, "production", some (9/10), some (9/10)⟩,
          ⟨2, "candidate", some (9/10), some (8/10)⟩] 2 "production" (3/4) (13/20)).2
            = .ok →
        ∃ m ∈ ([⟨1, "production", some (9/10), some (9/10)⟩,
            ⟨2, "candidate", some (9/10), some (8/10)⟩] : List ModelRow),
          m.id = 2 ∧ 3/4 ≤ m.roc_auc.getD 0 ∧ 13/20 ≤ m.f1.getD 0)
      ∧ ((promote_model [⟨1, "production", some (9/10), some (9/10)⟩,
          ⟨2, "candidate", some (9/10), some (8/10)⟩] 2 "production" (3/4) (13/20)).2
            = .ok →
        ∀ m ∈ ([⟨1, "production", some (9/10), some (9/10)⟩,
            ⟨2, "candidate", some (9/10), some (8/10)⟩] : List ModelRow),
          m.stage = "production" → m.id ≠ 2 →
          { m with stage := "candidate" }
            ∈ (promote_model [⟨1, "production", some (9/10), some (9/10)⟩,
                ⟨2, "candidate", some (9/10), some (8/10)⟩] 2 "production" (3/4) (13/20)).1)
      ∧ production_count (promote_model [⟨1, "production", some (9/10), some (9/10)⟩,
          ⟨2, "candidate", some (9/10), some (8/10)⟩] 2 "production" (3/4) (13/20)).1 ≤ 1) := by
  have hh : (([⟨1, "production", some (9/10), some (9/10)⟩,
      ⟨2, "candidate", some (9/10), some (8/10)⟩] : List ModelRow).map
        (fun m => m.id)).Nodup
      ∧ production_count [⟨1, "production", some (9/10), some (9/10)⟩,
          ⟨2, "candidate", some (9/10), some (8/10)⟩] ≤ 1 := by
    constructor
    · decide
    · simp [production_count]
  exact ⟨hh, claim_C7_promotion _ 2 "production" (3/4) (13/20) hh.1 hh.2⟩

end ClaimC7

section ClaimC4

/-- Lemma: Cauchy-Schwarz for list sums, `(sum l)^2 ≤ n * sum (l^2)`. -/
theorem list_sq_sum_le (l : List ℚ) :
    l.sum ^ 2 ≤ (l.length : ℚ) * (l.map (fun t => t ^ 2)).sum := by
  induction l with
  | nil => simp
  | cons a l ih =>
    have hq : 0 ≤ (l.map (fun t => t ^ 2)).sum := by
      apply List.sum_nonneg
      intro x hx
      obtain ⟨y, _, rfl⟩ := List.mem_map.mp hx
      positivity
    simp only [List.sum_cons, List.map_cons, List.length_cons]
    push_cast
    cases l with
    | nil => simp
    | cons b l2 =>
      have hn1 : (1 : ℚ) ≤ ((b :: l2).length : ℚ) := by
        have : 1 ≤ (b :: l2).length := by simp
        exact_mod_cast this
      nlinarith [ih, hq, hn1, sq_nonneg (((b :: l2).length : ℚ) * a - (b :: l2).sum),
        sq_nonneg (a - (b :: l2).sum), sq_nonneg (a + (b :: l2).sum)]

/-- Lemma: the sample excess kurtosis is never smaller than -3 in the
embedding: it is at least -2 whenever the variance is nonzero, and exactly
-3 on constant signals (where the total division by zero yields 0). scipy
returns NaN in the constant case; both fail a `> 10` test. -/
theorem scipyKurtosis_lower (l : List ℚ) : -3 ≤ scipyKurtosis l := by
  unfold scipyKurtosis
  by_cases hm2 : centralMoment 2 l = 0
  · rw [hm2]
    norm_num
  · have hY : centralMoment 4 l
        = ((l.map (fun x => (x - npMean l) ^ 2)).map (fun t => t ^ 2)).sum
            / ((l.map (fun x => (x - npMean l) ^ 2)).length : ℚ) := by
      unfold centralMoment npMean
      rw [List.map_map]
      have hfun : ((fun t => t ^ 2) ∘ fun x => (x - l.sum / (l.length : ℚ)) ^ 2)
          = fun x => (x - l.sum / (l.length : ℚ)) ^ 4 := by
        funext x
        simp only [Function.comp_apply]
        ring
      rw [hfun]
      simp
    have hS : centralMoment 2 l
        = (l.map (fun x => (x - npMean l) ^ 2)).sum
            / ((l.map (fun x => (x - npMean l) ^ 2)).length : ℚ) := by
      unfold centralMoment npMean
      rfl
    set Y := l.map (fun x => (x - npMean l) ^ 2) with hYdef
    have hSnn : 0 ≤ Y.sum := by
      apply List.sum_nonneg
      intro x hx
      obtain ⟨y, _, rfl⟩ := List.mem_map.mp hx
      positivity
    have hn : Y.length ≠ 0 := by
      intro h0
      apply hm2
      rw [hS, h0]
      simp
    have hnpos : (0 : ℚ) < (Y.length : ℚ) := by
      have h1 : 0 < Y.length := Nat.pos_of_ne_zero hn
      exact_mod_cast h1
    have hm2pos : 0 < centralMoment 2 l := by
      rcases lt_or_eq_of_le (div_nonneg hSnn (le_of_lt hnpos)) with h | h
      · rw [hS]
        exact h
      · exact absurd (hS.trans h.symm) hm2
    have hcs := list_sq_sum_le Y
    have hm4 : (centralMoment 2 l) ^ 2 ≤ centralMoment 4 l := by
      rw [hS, hY, div_pow, div_le_div_iff (by positivity) hnpos]
      calc Y.sum ^ 2 * (Y.length : ℚ)
          ≤ ((Y.length : ℚ) * (Y.map (fun t => t ^ 2)).sum) * (Y.length : ℚ) :=
            mul_le_mul_of_nonneg_right hcs (le_of_lt hnpos)
        _ = (Y.map (fun t => t ^ 2)).sum * (Y.length : ℚ) ^ 2 := by ring
    have h1 : (1 : ℚ) ≤ centralMoment 4 l / (centralMoment 2 l) ^ 2 :=
      (one_le_div (by positivity)).mpr hm4
    linarith

/-- Lemma: a fold appending the name on either of two chained conditions
(the `continue` structure of the first pass of `detect_bad_channels`)
produces the filter by their disjunction. -/
theorem foldl_two_if_eq {γ : Type} (A B : γ → Prop) [DecidablePred A] [DecidablePred B]
    (f : γ → String) (l : List γ) (acc : List String) :
    l.foldl (fun a c => if A c then a ++ [f c] else if B c then a ++ [f c] else a) acc
      = acc ++ (l.filter (fun c => A c ∨ B c)).map f := by
  induction l generalizing acc with
  | nil => simp
  | cons c l ih =>
    rw [List.foldl_cons]
    by_cases hA : A c
    · rw [if_pos hA, ih, List.filter_cons, if_pos (by simp [hA])]
      simp
    · rw [if_neg hA]
      by_cases hB : B c
      · rw [if_pos hB, ih, List.filter_cons, if_pos (by simp [hB])]
        simp
      · rw [if_neg hB, ih, List.filter_cons, if_neg (by simp [hA, hB])]

/-- Lemma: membership after the duplicate-guarded second pass of
`detect_bad_channels`. -/
theorem foldl_guarded_mem {γ : Type} (q : γ → Prop) [DecidablePred q]
    (f : γ → String) (l : List γ) (acc : List String) (x : String) :
    (x ∈ l.foldl (fun a c => if q c ∧ f c ∉ a then a ++ [f c] else a) acc
      ↔ x ∈ acc ∨ ∃ c ∈ l, q c ∧ f c = x) := by
  induction l generalizing acc with
  | nil => simp
  | cons c l ih =>
    rw [List.foldl_cons]
    by_cases h : q c ∧ f c ∉ acc
    · rw [if_pos h, ih]
      constructor
      · rintro (hx | ⟨c', hc', hq', hx⟩)
        · rcases List.mem_append.mp hx with hx1 | hx2
          · exact Or.inl hx1
          · exact Or.inr ⟨c, List.mem_cons_self c l, h.1, (List.mem_singleton.mp hx2).symm⟩
        · exact Or.inr ⟨c', List.mem_cons_of_mem c hc', hq', hx⟩
      · rintro (hx | ⟨c', hc', hq', hx⟩)
        · exact Or.inl (List.mem_append.mpr (Or.inl hx))
        · rcases List.mem_cons.mp hc' with rfl | hc''
          · exact Or.inl (List.mem_append.mpr (Or.inr (List.mem_singleton.mpr hx.symm)))
          · exact Or.inr ⟨c', hc'', hq', hx⟩
    · rw [if_neg h, ih]
      constructor
      · rintro (hx | ⟨c', hc', hq', hx⟩)
        · exact Or.inl hx
        · exact Or.inr ⟨c', List.mem_cons_of_mem c hc', hq', hx⟩
      · rintro (hx | ⟨c', hc', hq', hx⟩)
        · exact Or.inl hx
        · rcases List.mem_cons.mp hc' with rfl | hc''
          · left
            have hin : f c' ∈ acc := by
              by_contra hno
              exact h ⟨hq', hno⟩
            rwa [hx] at hin
          · exact Or.inr ⟨c', hc'', hq', hx⟩

/-- Lemma: the duplicate-guarded pass preserves `Nodup`. -/
theorem foldl_guarded_nodup {γ : Type} (q : γ → Prop) [DecidablePred q]
    (f : γ → String) (l : List γ) (acc : List String) (h : acc.Nodup) :
    (l.foldl (fun a c => if q c ∧ f c ∉ a then a ++ [f c] else a) acc).Nodup := by
  induction l generalizing acc with
  | nil => exact h
  | cons c l ih =>
    rw [List.foldl_cons]
    by_cases hc : q c ∧ f c ∉ acc
    · rw [if_pos hc]
      refine ih _ ?_
      rw [List.nodup_append]
      exact ⟨h, List.nodup_singleton _, by simpa using hc.2⟩
    · rw [if_neg hc]
      exact ih _ h

/-- Lemma: in a list whose first components are `Nodup`, two members with the
same first component are the same pair. -/
theorem eq_of_fst_eq_of_nodup_keys {β : Type} :
    ∀ (l : List (String × β)), (l.map Prod.fst).Nodup →
      ∀ {p q : String × β}, p ∈ l → q ∈ l → p.1 = q.1 → p = q := by
  intro l
  induction l with
  | nil =>
    intro _ p q hp _ _
    cases hp
  | cons c l ih =>
    intro hl p q hp hq hfst
    rw [List.map_cons, List.nodup_cons] at hl
    rcases List.mem_cons.mp hp with rfl | hp'
    · rcases List.mem_cons.mp hq with rfl | hq'
      · rfl
      · exact absurd (hfst ▸ List.mem_map_of_mem Prod.fst hq') hl.1
    · rcases List.mem_cons.mp hq with rfl | hq'
      · exact absurd (hfst ▸ List.mem_map_of_mem Prod.fst hp') hl.1
      · exact ih hl.2 hp' hq' hfst

/-- Lemma: zipping a list with a mapped copy of itself pairs each element
with its image. -/
theorem zip_self_map {α β : Type} (l : List α) (g : α → β) :
    l.zip (l.map g) = l.map (fun a => (a, g a)) := by
  induction l with
  | nil => rfl
  | cons a l ih => simp [ih]

/-- Lemma: the z-score of the variance of the sole channel is zero
(numerator `v - mean [v] = 0`). -/
theorem zscoreVal_singleton (v : ℚ) : zscoreVal [v] v = 0 := by
  unfold zscoreVal npMean
  simp

/-- C4: with the default thresholds (1e-6, 10, 5), `detect_bad_channels`
marks an EEG channel bad exactly when its standard deviation is below 1e-6,
or the absolute value of its kurtosis exceeds 10, or the absolute z-score of
its variance across channels exceeds 5; and the returned list has no
duplicates. The code tests `kurtosis > 10` without `abs`, but the two
conditions agree because sample excess kurtosis is never below -3; likewise
the code skips the z-score pass for a single channel, whose z-score is 0
anyway. -/
theorem claim_C4_detect_bad_channels (channels : List (String × List ℚ))
    (hnd : (channels.map Prod.fst).Nodup) (n : String) (x : List ℚ)
    (hmem : (n, x) ∈ channels) :
    (n ∈ detect_bad_channels (1/1000000) 10 5 channels ↔
      (npStd x < ((1/1000000 : ℚ) : ℝ)
        ∨ (10 : ℚ) < |scipyKurtosis x|
        ∨ ((5 : ℚ) : ℝ) < |zscoreVal (channels.map (fun c => npVar c.2)) (npVar x)|))
    ∧ (detect_bad_channels (1/1000000) 10 5 channels).Nodup := by
  have hkurt : ∀ y : List ℚ,
      ((10 : ℚ) < scipyKurtosis y ↔ (10 : ℚ) < |scipyKurtosis y|) := by
    intro y
    have hb := scipyKurtosis_lower y
    rcases le_or_lt 0 (scipyKurtosis y) with h | h
    · rw [abs_of_nonneg h]
    · rw [abs_of_neg h]
      constructor
      · intro hlt
        linarith
      · intro hlt
        linarith
  have hphase1 := foldl_two_if_eq
    (fun c : String × List ℚ => npStd c.2 < ((1/1000000 : ℚ) : ℝ))
    (fun c : String × List ℚ => (10 : ℚ) < scipyKurtosis c.2) Prod.fst channels []
  rw [List.nil_append] at hphase1
  have hP1nodup : ((channels.filter (fun c =>
      npStd c.2 < ((1/1000000 : ℚ) : ℝ) ∨ (10 : ℚ) < scipyKurtosis c.2)).map
        Prod.fst).Nodup :=
    List.Nodup.sublist (List.Sublist.map Prod.fst (List.filter_sublist channels)) hnd
  have hmem1 : n ∈ (channels.filter (fun c =>
      npStd c.2 < ((1/1000000 : ℚ) : ℝ) ∨ (10 : ℚ) < scipyKurtosis c.2)).map Prod.fst
      ↔ (npStd x < ((1/1000000 : ℚ) : ℝ) ∨ (10 : ℚ) < scipyKurtosis x) := by
    rw [List.mem_map]
    constructor
    · rintro ⟨c, hc, hcn⟩
      rw [List.mem_filter] at hc
      have hcx : c = (n, x) := eq_of_fst_eq_of_nodup_keys channels hnd hc.1 hmem hcn
      have hcc := hc.2
      rw [hcx] at hcc
      simpa using hcc
    · intro h
      exact ⟨(n, x), List.mem_filter.mpr ⟨hmem, by simpa using h⟩, rfl⟩
  by_cases hlen : 1 < channels.length
  · have hdet : detect_bad_channels (1/1000000) 10 5 channels
        = (channels.zip ((channels.map (fun c => npVar c.2)).map
            (fun v => zscoreVal (channels.map (fun c => npVar c.2)) v))).foldl
            (fun acc cz =>
              if ((5 : ℚ) : ℝ) < |cz.2| ∧ cz.1.1 ∉ acc then acc ++ [cz.1.1] else acc)
            ((channels.filter (fun c =>
              npStd c.2 < ((1/1000000 : ℚ) : ℝ) ∨ (10 : ℚ) < scipyKurtosis c.2)).map
                Prod.fst) := by
      unfold detect_bad_channels
      rw [if_pos hlen, hphase1]
    have hzipeq : channels.zip ((channels.map (fun c => npVar c.2)).map
        (fun v => zscoreVal (channels.map (fun c => npVar c.2)) v))
        = channels.map (fun c =>
            (c, zscoreVal (channels.map (fun c => npVar c.2)) (npVar c.2))) := by
      rw [List.map_map]
      exact zip_self_map channels _
    have hmem2 := foldl_guarded_mem
      (fun cz : (String × List ℚ) × ℝ => ((5 : ℚ) : ℝ) < |cz.2|)
      (fun cz : (String × List ℚ) × ℝ => cz.1.1)
      (channels.map (fun c =>
        (c, zscoreVal (channels.map (fun c => npVar c.2)) (npVar c.2))))
      ((channels.filter (fun c =>
        npStd c.2 < ((1/1000000 : ℚ) : ℝ) ∨ (10 : ℚ) < scipyKurtosis c.2)).map
          Prod.fst) n
    constructor
    · rw [hdet, hzipeq, hmem2, hmem1]
      have hz : (∃ cz ∈ channels.map (fun c =>
            (c, zscoreVal (channels.map (fun c => npVar c.2)) (npVar c.2))),
          (((5 : ℚ) : ℝ) < |cz.2|) ∧ cz.1.1 = n)
          ↔ ((5 : ℚ) : ℝ)
              < |zscoreVal (channels.map (fun c => npVar c.2)) (npVar x)| := by
        constructor
        · rintro ⟨cz, hcz, hq, hczn⟩
          obtain ⟨c, hc, rfl⟩ := List.mem_map.mp hcz
          have hcx : c = (n, x) := eq_of_fst_eq_of_nodup_keys channels hnd hc hmem hczn
          rw [hcx] at hq
          exact hq
        · intro h
          exact ⟨_, List.mem_map_of_mem _ hmem, h, rfl⟩
      rw [hz, hkurt x, or_assoc]
    · rw [hdet, hzipeq]
      exact foldl_guarded_nodup
        (fun cz : (String × List ℚ) × ℝ => ((5 : ℚ) : ℝ) < |cz.2|)
        (fun cz : (String × List ℚ) × ℝ => cz.1.1) _ _ hP1nodup
  · have hsil : channels = [(n, x)] := by
      cases channels with
      | nil => cases hmem
      | cons c rest =>
        cases rest with
        | nil => rw [List.mem_singleton.mp hmem]
        | cons d rest2 => simp at hlen
    have hdet : detect_bad_channels (1/1000000) 10 5 channels
        = (channels.filter (fun c =>
            npStd c.2 < ((1/1000000 : ℚ) : ℝ) ∨ (10 : ℚ) < scipyKurtosis c.2)).map
              Prod.fst := by
      unfold detect_bad_channels
      rw [if_neg hlen, hphase1]
    have hzero : zscoreVal (channels.map (fun c => npVar c.2)) (npVar x) = 0 := by
      rw [hsil]
      exact zscoreVal_singleton (npVar x)
    constructor
    · rw [hdet, hmem1, hzero, hkurt x]
      have h50 : ¬ (((5 : ℚ) : ℝ) < |(0 : ℝ)|) := by norm_num
      tauto
    · rw [hdet]
      exact hP1nodup

/-- C4 witness: a two-channel montage with one flat channel; the theorem's
equivalence instantiated at the flat channel. -/
theorem claim_C4_witness :
    ((([("c0", [0, 0]), ("c1", [1, -1])] : List (String × List ℚ)).map Prod.fst).Nodup
      ∧ ("c0", ([0, 0] : List ℚ)) ∈ ([("c0", [0, 0]), ("c1", [1, -1])] :
          List (String × List ℚ)))
    ∧ (("c0" ∈ detect_bad_channels (1/1000000) 10 5 [("c0", [0, 0]), ("c1", [1, -1])] ↔
        (npStd [0, 0] < ((1/1000000 : ℚ) : ℝ)
          ∨ (10 : ℚ) < |scipyKurtosis [0, 0]|
          ∨ ((5 : ℚ) : ℝ) < |zscoreVal (([("c0", [0, 0]), ("c1", [1, -1])] :
              List (String × List ℚ)).map (fun c => npVar c.2)) (npVar [0, 0])|))
      ∧ (detect_bad_channels (1/1000000) 10 5 [("c0", [0, 0]), ("c1", [1, -1])]).Nodup) := by
  have hh : ((([("c0", [0, 0]), ("c1", [1, -1])] : List (String × List ℚ)).map
      Prod.fst).Nodup
      ∧ ("c0", ([0, 0] : List ℚ)) ∈ ([("c0", [0, 0]), ("c1", [1, -1])] :
          List (String × List ℚ))) := by
    constructor
    · decide
    · simp
  exact ⟨hh, claim_C4_detect_bad_channels _ hh.1 "c0" [0, 0] hh.2⟩

end ClaimC4

end NeuroLab
